/-
Verification of the airmash ground-control core: occupancy grid and
coordinate transforms (src/types.rs), command interpreter (src/commands.rs),
fleet manager (src/server.rs) and wingman pursuit decisions (src/wing.rs).

Machine integers (isize, u8) are embedded as Int/Nat; f32 world coordinates
are embedded as exact rationals; Rust &str values are embedded as List Char.
The compiled-in terrain matrix (src/map.rs, referenced as crate::map::MAP but
not part of the sources) is modelled as an arbitrary boolean matrix parameter.
-/
import Mathlib

set_option linter.unusedVariables false
set_option maxRecDepth 8000

/-! ## Grid data model (src/types.rs) -/

/-- Modelled from the spec: the compiled-in static terrain data
(crate::map::MAP, a 256-row by 512-column 0/1 matrix from src/map.rs, which is
not among the sources).  `g row col = true` means the cell is terrain-blocked,
mirroring `MAP[y][x] == 1`. -/
def Grid : Type := Nat → Nat → Bool

/-- `MapPosition` from src/types.rs: integer grid coordinates (isize as Int). -/
structure MapPosition where
  x : Int
  y : Int
deriving DecidableEq, Repr

instance : Inhabited MapPosition := ⟨⟨0, 0⟩⟩

/-- `MAP_MAX_X` (src/types.rs). -/
def MAP_MAX_X : Int := 512

/-- `MAP_MAX_Y` (src/types.rs). -/
def MAP_MAX_Y : Int := 256

/-- `MapPosition::is_occupied`: out of range or terrain-marked blocked. -/
def is_occupied (g : Grid) (p : MapPosition) : Bool :=
  decide (p.x < 0) || decide (p.x ≥ MAP_MAX_X) || decide (p.y < 0) ||
    decide (p.y ≥ MAP_MAX_Y) || g p.y.toNat p.x.toNat

/-- The 3x3 neighbourhood offsets, excluding the centre, in the scan order of
`UnoccupiedMapPositionIter` (src/types.rs): y from -1 to 1, x from -1 to 1. -/
def neighbor_offsets : List (Int × Int) :=
  [(-1, -1), (0, -1), (1, -1), (-1, 0), (1, 0), (-1, 1), (0, 1), (1, 1)]

/-- `MapPosition::adjacent_positions`: the unoccupied cells of the 3x3
neighbourhood, in scan order (the collected output of
`UnoccupiedMapPositionIter`). -/
def adjacent_positions (g : Grid) (p : MapPosition) : List MapPosition :=
  (neighbor_offsets.map (fun d => MapPosition.mk (p.x + d.1) (p.y + d.2))).filter
    (fun q => !(is_occupied g q))

/-- `MapPosition::distance`: Manhattan distance, `absdiff x + absdiff y`. -/
def MapPosition.distance (p q : MapPosition) : Int :=
  |p.x - q.x| + |p.y - q.y|

/-! ### World to grid transforms (src/types.rs, From impls)

f32 world coordinates are embedded as exact rationals.  The `as isize` cast
truncates toward zero; its argument is nonnegative (after `.abs().max(0.0)`),
so it is embedded as `Int.floor`. -/

/-- `airmash_protocol::Position`: a world-space point (f32 pair as ℚ pair). -/
structure Position where
  x : ℚ
  y : ℚ
deriving DecidableEq

/-- `BOUNDARY_X` (src/types.rs). -/
def BOUNDARY_X : ℚ := 16384

/-- `BOUNDARY_Y` (src/types.rs). -/
def BOUNDARY_Y : ℚ := 8192

/-- `impl From<Position> for MapPosition` (src/types.rs lines 52-59):
shift, divide by 64, abs, max 0, truncate (the argument is nonnegative, so
the `as isize` truncation is the floor), clamp to the map maximum. -/
def mapPosition_of_position (p : Position) : MapPosition :=
  ⟨min ⌊max |(p.x + BOUNDARY_X) / 64| 0⌋ (MAP_MAX_X - 1),
   min ⌊max |(p.y + BOUNDARY_Y) / 64| 0⌋ (MAP_MAX_Y - 1)⟩

/-- `impl From<MapPosition> for Position` (src/types.rs lines 73-80):
the world-space centre of a cell. -/
def position_of_mapPosition (p : MapPosition) : Position :=
  ⟨((p.x * 64 : Int) : ℚ) + 32 - BOUNDARY_X,
   ((p.y * 64 : Int) : ℚ) + 32 - BOUNDARY_Y⟩

/-! ### Line rasterization (the line_drawing crate used by
`MapPosition::obstacle_between`)

`Bresenham::new(start, end)` maps both points into octant 0 and walks x from
start to end inclusive, bumping y whenever the running error is nonnegative.
The iterator is embedded as the list of points it yields: in octant-0
coordinates x advances by exactly 1 per step and the loop stops when x passes
the end, so the number of steps is `end.x - start.x + 1`. -/

/-- `Octant::new` from the line_drawing crate: classify the direction of the
line from `s` to `e` into one of 8 octants. -/
def octant_new (s e : Int × Int) : Nat :=
  let dx1 := e.1 - s.1
  let dy1 := e.2 - s.2
  let t1 := if dy1 < 0 then (-dx1, -dy1, 4) else (dx1, dy1, 0)
  let t2 := if t1.1 < 0 then (t1.2.1, -t1.1, t1.2.2 + 2) else t1
  if t2.1 < t2.2.1 then t2.2.2 + 1 else t2.2.2

/-- `Octant::to`: map a point into octant-0 coordinates. -/
def octant_to (v : Nat) (p : Int × Int) : Int × Int :=
  match v with
  | 0 => (p.1, p.2)
  | 1 => (p.2, p.1)
  | 2 => (p.2, -p.1)
  | 3 => (-p.1, p.2)
  | 4 => (-p.1, -p.2)
  | 5 => (-p.2, -p.1)
  | 6 => (-p.2, p.1)
  | 7 => (p.1, -p.2)
  | _ => (p.1, p.2)

/-- `Octant::from`: map a point back from octant-0 coordinates. -/
def octant_from (v : Nat) (p : Int × Int) : Int × Int :=
  match v with
  | 0 => (p.1, p.2)
  | 1 => (p.2, p.1)
  | 2 => (-p.2, p.1)
  | 3 => (-p.1, p.2)
  | 4 => (-p.1, -p.2)
  | 5 => (-p.2, -p.1)
  | 6 => (p.2, -p.1)
  | 7 => (p.1, -p.2)
  | _ => (p.1, p.2)

/-- The body of `Bresenham::next`, iterated: emit the current point (mapped
back from octant 0), then advance x and possibly y depending on the error. -/
def bres_loop (o : Nat) (delta_x delta_y : Int) :
    Nat → Int × Int → Int → List (Int × Int)
  | 0, _, _ => []
  | fuel + 1, point, error =>
    octant_from o point ::
      (let py2 := if error ≥ 0 then point.2 + 1 else point.2
       let error2 := if error ≥ 0 then error - delta_x else error
       bres_loop o delta_x delta_y fuel (point.1 + 1, py2) (error2 + delta_y))

/-- The full point list of `Bresenham::new(s, e)`, both endpoints included. -/
def bresenham (s e : Int × Int) : List (Int × Int) :=
  let o := octant_new s e
  let s0 := octant_to o s
  let e0 := octant_to o e
  let dx := e0.1 - s0.1
  let dy := e0.2 - s0.2
  bres_loop o dx dy (e0.1 - s0.1 + 1).toNat s0 (dy - dx)

/-- `MapPosition::obstacle_between` (src/types.rs lines 31-40): the first
occupied cell on the rasterized line from `p` to `q`, if any. -/
def obstacle_between (g : Grid) (p q : MapPosition) : Option MapPosition :=
  (bresenham (p.x, p.y) (q.x, q.y)).findSome? (fun c =>
    let pos := MapPosition.mk c.1 c.2
    if is_occupied g pos then some pos else none)

/-- A concrete terrain matrix blocking only the cell with x = 1, y = 0
(`MAP[0][1] == 1`), used to exhibit the asymmetry of the line-blocked check. -/
def cex_grid : Grid := fun row col => decide (row = 0 ∧ col = 1)

/-! ## Command interpreter (src/commands.rs)

Rust `&str` values are embedded as `List Char`. -/

/-- Unicode whitespace, per Rust `char::is_whitespace` (the separator set of
`str::split_whitespace`). -/
def rust_is_whitespace (c : Char) : Bool :=
  c.toNat ∈ [0x09, 0x0A, 0x0B, 0x0C, 0x0D, 0x20, 0x85, 0xA0, 0x1680,
    0x2000, 0x2001, 0x2002, 0x2003, 0x2004, 0x2005, 0x2006, 0x2007, 0x2008,
    0x2009, 0x200A, 0x2028, 0x2029, 0x202F, 0x205F, 0x3000]

/-- Accumulator pass of `str::split_whitespace`: `acc` holds the reversed
current word. -/
def split_ws_aux : List Char → List Char → List (List Char)
  | [], acc => if acc = [] then [] else [acc.reverse]
  | c :: cs, acc =>
    if rust_is_whitespace c then
      if acc = [] then split_ws_aux cs []
      else acc.reverse :: split_ws_aux cs []
    else split_ws_aux cs (c :: acc)

/-- `str::split_whitespace`, collected: the maximal nonempty runs of
non-whitespace characters. -/
def split_whitespace (s : List Char) : List (List Char) :=
  split_ws_aux s []

/-- `str::starts_with` with a string pattern: `starts_with s p` is true iff
`p` is an initial segment of `s`. -/
def starts_with : List Char → List Char → Bool
  | _, [] => true
  | [], _ :: _ => false
  | c :: cs, p :: ps => c = p && starts_with cs ps

/-- `str::parse::<u8>` (`u8::from_str`): an optional leading plus sign, then
one or more ASCII digits, with a value of at most 255; anything else fails. -/
def parse_u8 (s : List Char) : Option Nat :=
  let t := match s with
    | '+' :: rest => rest
    | _ => s
  if t = [] then none
  else if t.all Char.isDigit then
    let v := t.foldl (fun acc c => acc * 10 + (c.toNat - 48)) 0
    if v ≤ 255 then some v else none
  else none

/-- `command::PREFIX` (src/commands.rs): prefix for all commands. -/
def cmd_prefix_gc : List Char := "--gc".toList

/-- `command::HELP`. -/
def cmd_help : List Char := "--gc-help".toList

/-- `command::WINGS`. -/
def cmd_wings : List Char := "--gc-wings".toList

/-- `command::CALL_OFF`. -/
def cmd_call_off : List Char := "--gc-call-off".toList

/-- `command::VERSION`. -/
def cmd_version : List Char := "--gc-version".toList

/-- Modelled from the spec: `crate_version!()` reads the crate version from
Cargo.toml, which is not among the sources.  No claim depends on its value. -/
def crate_version : List Char := []

/-- `version_message` (src/commands.rs). -/
def version_message : List (List Char) :=
  ["AIRMASH Ground Control, version ".toList ++ crate_version]

/-- `help_response` (src/commands.rs), via the `command_help!` macro. -/
def help_response : List (List Char) :=
  [cmd_wings ++ ": request X attacking wingmen".toList,
   cmd_call_off ++ ": remove any requested wingmen".toList,
   cmd_version ++ ": program version".toList]

/-- `Command` (src/commands.rs): message text, user name, current wings (u8
as Nat). -/
structure Command where
  message : List Char
  user : List Char
  wings : Nat
deriving DecidableEq

/-- `BadCommand` (src/commands.rs). -/
inductive BadCommand where
  | Unknown : List Char → BadCommand
  | NoWings : List Char → BadCommand
  | TooManyWings : List Char → Nat → BadCommand
  | AlreadyWinged : List Char → Nat → BadCommand
deriving DecidableEq

/-- `ResponseKind` (src/commands.rs). -/
inductive ResponseKind where
  | SetWings : Nat → ResponseKind
  | ClearWings : ResponseKind
deriving DecidableEq

/-- `Response` (src/commands.rs): reply lines plus an optional action. -/
structure Response where
  message : List (List Char)
  kind : Option ResponseKind
deriving DecidableEq

deriving instance DecidableEq for Except

/-- `Response::just_message`. -/
def Response.just_message (message : List (List Char)) : Response :=
  ⟨message, none⟩

/-- `Response::add_wings`: canned confirmation plus the SetWings action. -/
def Response.add_wings (user : List Char) (wings : Nat) : Response :=
  ⟨["OK ".toList ++ user ++ ", ".toList ++ (Nat.repr wings).toList ++
      " wings are coming!".toList],
   some (ResponseKind.SetWings wings)⟩

/-- `Response::clear_wings`: canned text plus the ClearWings action. -/
def Response.clear_wings (user : List Char) : Response :=
  ⟨["Calling off all wings from ".toList ++ user],
   some ResponseKind.ClearWings⟩

/-- `ControlTower::parse_command_impl` (src/commands.rs lines 192-223).
`max_wings` is the tower's `max_wings` field (u8 as Nat).  The wings branch
drops the first whitespace-separated word (the command itself) and parses the
next one as a u8. -/
def parse_command_impl (max_wings : Nat) (cmd : Command) : Except BadCommand Response :=
  if cmd.message = cmd_help then Except.ok (Response.just_message help_response)
  else if cmd.message = cmd_version then Except.ok (Response.just_message version_message)
  else if starts_with cmd.message cmd_wings then
    if cmd.wings > 0 then Except.error (BadCommand.AlreadyWinged cmd.user cmd.wings)
    else
      match (split_whitespace cmd.message)[1]?.bind parse_u8 with
      | none => Except.error (BadCommand.Unknown cmd.message)
      | some count =>
        if count > max_wings then Except.error (BadCommand.TooManyWings cmd.user max_wings)
        else if count = 0 then Except.error (BadCommand.Unknown cmd.message)
        else Except.ok (Response.add_wings cmd.user count)
  else if cmd.message = cmd_call_off then
    if cmd.wings > 0 then Except.ok (Response.clear_wings cmd.user)
    else Except.error (BadCommand.NoWings cmd.user)
  else Except.error (BadCommand.Unknown cmd.message)

/-- `ControlTower::parse_command` (src/commands.rs lines 231-238): `none`
when the message does not carry the controller prefix. -/
def parse_command (max_wings : Nat) (cmd : Command) : Option (Except BadCommand Response) :=
  if starts_with cmd.message cmd_prefix_gc then some (parse_command_impl max_wings cmd)
  else none

/-! ## Shutdown flag (src/wing.rs) and fleet manager (src/server.rs) -/

/-- The value of a ShutdownFlag's shared atomic cell (`Flag` in src/wing.rs);
`false` is the initial `ATOMIC_BOOL_INIT` state. -/
def ShutdownFlag : Type := Bool

instance : DecidableEq ShutdownFlag := inferInstanceAs (DecidableEq Bool)

/-- `Flag::default` (src/wing.rs): a fresh cell holding false. -/
def ShutdownFlag.default : ShutdownFlag := false

/-- `Flag::read` (src/wing.rs): `load(SeqCst)` returns the value and leaves
the cell unchanged. -/
def ShutdownFlag.read (f : ShutdownFlag) : Bool × ShutdownFlag := (f, f)

/-- `Drop for Flag` (src/wing.rs): `store(true, SeqCst)`; dropping a flag
sets the shared cell. -/
def ShutdownFlag.drop_store (f : ShutdownFlag) : ShutdownFlag := true

/-- The state of `Server` (src/server.rs) that the claims concern: the
world's id-to-name player view (read through `player_name`, maintained
externally by the client) and the `wingmen` registry mapping a player id
(`protocol::Player` as Nat) to its list of shutdown-flag cells. -/
structure ServerState where
  players : List (Nat × List Char)
  wingmen : List (Nat × List ShutdownFlag)
deriving DecidableEq

/-- `Server::player_name` (src/server.rs lines 54-60). -/
def player_name (s : ServerState) (id : Nat) : Option (List Char) :=
  (s.players.find? (fun e => e.1 == id)).map (fun e => e.2)

/-- `Server::spawn_wingmen` (src/server.rs lines 63-83): look up the name
(warn and return if unknown), spawn `wings` fresh default flags and insert
them under the player key (`HashMap::insert` replaces any previous entry). -/
def spawn_wingmen (s : ServerState) (id : Nat) (wings : Nat) : ServerState :=
  match player_name s id with
  | none => s
  | some _ =>
    { s with wingmen := (id, List.replicate wings ShutdownFlag.default) ::
        s.wingmen.filter (fun e => !(e.1 == id)) }

/-- `Server::clear_wingmen` (src/server.rs lines 86-90): `HashMap::remove`;
the removed flags are dropped, firing their cancellation side effect. -/
def clear_wingmen (s : ServerState) (id : Nat) : ServerState :=
  { s with wingmen := s.wingmen.filter (fun e => !(e.1 == id)) }

/-- The current wingman count used by `Server::handle_message`:
`wingmen.get(&id).map(|w| w.len()).unwrap_or(0)`. -/
def wingmen_count (s : ServerState) (id : Nat) : Nat :=
  ((s.wingmen.find? (fun e => e.1 == id)).map (fun e => e.2.length)).getD 0

/-- The Display text of a `BadCommand` (src/commands.rs, `impl fmt::Display`),
relayed to chat by `Server::handle_message`. -/
def bad_command_text : BadCommand → List Char
  | BadCommand.Unknown c => "unknown command: \x27".toList ++ c ++ "\x27".toList
  | BadCommand.NoWings u => "no wings assigned to ".toList ++ u
  | BadCommand.TooManyWings u m =>
    "too many wings attacking ".toList ++ u ++ " (max ".toList ++
      (Nat.repr m).toList ++ " wings)".toList
  | BadCommand.AlreadyWinged u w =>
    u ++ " already has ".toList ++ (Nat.repr w).toList ++ " wings; use ".toList ++
      cmd_call_off ++ " to remove".toList

/-- `Server::handle_message` (src/server.rs lines 93-131): resolve the player
name (unknown id: log and ignore), compute the current count, run the
interpreter, apply the response action, collect the chat replies sent. -/
def handle_message (max_wings : Nat) (s : ServerState) (id : Nat)
    (message : List Char) : ServerState × List (List Char) :=
  match player_name s id with
  | none => (s, [])
  | some name =>
    match parse_command max_wings ⟨message, name, wingmen_count s id⟩ with
    | none => (s, [])
    | some (Except.error e) => (s, [bad_command_text e])
    | some (Except.ok resp) =>
      let s2 := match resp.kind with
        | some (ResponseKind.SetWings wings) => spawn_wingmen s id wings
        | some ResponseKind.ClearWings => clear_wingmen s id
        | none => s
      (s2, resp.message)

/-- `protocol::ServerPacket`, restricted to the variants that
`Server::handle_packet` inspects (everything else falls into `Other`). -/
inductive ServerPacket where
  | ChatPublic : Nat → List Char → ServerPacket
  | PlayerLeave : Nat → ServerPacket
  | PlayerNew : List Char → ServerPacket
  | Other : ServerPacket

/-- The standing-by announcement (src/server.rs lines 142-148). -/
def announce_text (name : List Char) : List Char :=
  "Ground Control, standing by for ".toList ++ name ++ "! Use ".toList ++
    cmd_help ++ " for help.".toList

/-- `Server::handle_packet` (src/server.rs lines 134-152): the state after the
packet and the chat lines sent while handling it. -/
def handle_packet (max_wings : Nat) (announce : Bool) (s : ServerState) :
    ServerPacket → ServerState × List (List Char)
  | ServerPacket.ChatPublic id text => handle_message max_wings s id text
  | ServerPacket.PlayerLeave id => (clear_wingmen s id, [])
  | ServerPacket.PlayerNew name =>
    (s, if announce then [announce_text name] else [])
  | ServerPacket.Other => (s, [])

/-- The states `Server::run` can reach: started with an empty registry
(`Server::new`), evolved by handled packets; the world's player view is
maintained externally by the client and may change arbitrarily between
packets. -/
inductive ServerReachable (max_wings : Nat) (announce : Bool) : ServerState → Prop where
  | init (players : List (Nat × List Char)) :
      ServerReachable max_wings announce ⟨players, []⟩
  | step (s : ServerState) (pkt : ServerPacket) :
      ServerReachable max_wings announce s →
      ServerReachable max_wings announce (handle_packet max_wings announce s pkt).1
  | world (s : ServerState) (players : List (Nat × List Char)) :
      ServerReachable max_wings announce s →
      ServerReachable max_wings announce ⟨players, s.wingmen⟩

/-- The C7 registry invariant: every entry of the registry holds a non-empty
flag list of length at most `max_wings`. -/
def WingmenInv (max_wings : Nat) (s : ServerState) : Prop :=
  ∀ e ∈ s.wingmen, 0 < e.2.length ∧ e.2.length ≤ max_wings

/-! ## Pathfinding: the A* search of `Wingman::follow` (src/wing.rs lines
152-164)

The search itself is `pathfinding::prelude::astar`, an external crate whose
code is not among the sources; it is modelled from the spec (section 4.4):
8-directional adjacency through `adjacent_positions`, uniform edge cost 1,
Manhattan-distance heuristic, goal test by exact cell equality, returning the
ordered path including both endpoints, or none if unreachable. -/

/-- The heuristic passed to astar by `Wingman::follow`: `p.distance(dst)`,
as the Nat cost type (the distance is nonnegative). -/
def astar_heuristic (goal p : MapPosition) : Nat :=
  (MapPosition.distance p goal).toNat

/-- The f-value of a frontier entry (a reversed path, head = newest cell):
accumulated cost (uniform edge cost 1, so length - 1) plus the heuristic at
the head. -/
def fcost (goal : MapPosition) (e : List MapPosition) : Nat :=
  (e.length - 1) + astar_heuristic goal e.headI

/-- Remove an entry with minimal f-value from the frontier. -/
def selectMin (goal : MapPosition) :
    List (List MapPosition) → Option (List MapPosition × List (List MapPosition))
  | [] => none
  | e :: es =>
    match selectMin goal es with
    | none => some (e, [])
    | some (m, rest) =>
      if fcost goal e ≤ fcost goal m then some (e, es) else some (m, e :: rest)

/-- Modelled from the spec: the A* main loop.  Frontier entries are reversed
paths from the start; the entry with minimal f is expanded; a cell is never
expanded twice (`visited`); expanding the goal returns the path.  The fuel
argument only bounds the iteration count: `ASTAR_FUEL` is proved large enough
that the loop always terminates by emptying its frontier first. -/
def astar_loop (g : Grid) (goal : MapPosition) :
    Nat → List (List MapPosition) → List MapPosition → Option (List MapPosition)
  | 0, _, _ => none
  | fuel + 1, frontier, visited =>
    match selectMin goal frontier with
    | none => none
    | some (e, rest) =>
      if e.headI ∈ visited then astar_loop g goal fuel rest visited
      else if e.headI = goal then some e.reverse
      else astar_loop g goal fuel
        (rest ++ (adjacent_positions g e.headI).map (fun q => q :: e))
        (e.headI :: visited)

/-- Iteration budget: every loop iteration strictly decreases
`frontier.length + 9 * (number of unvisited candidate cells)`, which starts
below `1 + 9 * (512 * 256 + 1)`. -/
def ASTAR_FUEL : Nat := 9 * (512 * 256 + 1) + 2

/-- Modelled from the spec: `astar(&src_map_pos, successors, heuristic,
success)` as called by `Wingman::follow`, giving the ordered path of cells
(both endpoints included) or none. -/
def astar (g : Grid) (start goal : MapPosition) : Option (List MapPosition) :=
  astar_loop g goal ASTAR_FUEL [[start]] []

/-- One pursuit step: `q` is an unoccupied 8-neighbour of `p`. -/
def Step (g : Grid) (p q : MapPosition) : Prop :=
  q ∈ adjacent_positions g p

/-- Reachability through unoccupied 8-adjacent cells. -/
def Reach (g : Grid) (start goal : MapPosition) : Prop :=
  Relation.ReflTransGen (Step g) start goal

/-- Reversed paths from `start`: the head is the newest cell, each cell is an
unoccupied 8-neighbour of the previous head, and the last cell is `start`. -/
inductive RevPath (g : Grid) (start : MapPosition) : List MapPosition → Prop where
  | base : RevPath g start [start]
  | cons (q : MapPosition) (e : List MapPosition) :
      RevPath g start e → q ∈ adjacent_positions g e.headI → RevPath g start (q :: e)

/-- The in-bounds grid cells, as a finite set. -/
def in_bounds_cells : Finset MapPosition :=
  ((Finset.Icc (0 : Int) 511) ×ˢ (Finset.Icc (0 : Int) 255)).image
    (fun p => MapPosition.mk p.1 p.2)

/-! ## Wingman pursuit decisions (src/wing.rs) -/

/-- `MIN_FIRE_DIST` (src/wing.rs): 500 world units. -/
def MIN_FIRE_DIST : ℚ := 500

/-- Destination substitution of `Wingman::follow` (src/wing.rs lines 129-139):
if the target's cell is occupied take the first unoccupied neighbour in scan
order; if there is none, disable pathfinding for this tick. -/
def resolve_destination (g : Grid) (dst : MapPosition) : MapPosition × Bool :=
  if is_occupied g dst then
    match (adjacent_positions g dst).head? with
    | some p => (p, true)
    | none => (dst, false)
  else (dst, true)

/-- One iteration of the pursuit decision of `Wingman::follow` (src/wing.rs
lines 113-174): the fire flag and the aim point passed to `point_at`.
`close_enough` abstracts the f32 comparison
`(pos - me.pos).length() < MIN_FIRE_DIST`; the fire flag starts as that
comparison and is forced off when the line of sight is blocked.  When the
blocking cell is within Manhattan distance 16, a found path's second cell
(converted back to world coordinates) overrides the aim point. -/
def follow_decision (g : Grid) (close_enough : Bool) (src dst0 : MapPosition)
    (target_pos : Position) : Bool × Position :=
  if (resolve_destination g dst0).2 then
    match obstacle_between g src (resolve_destination g dst0).1 with
    | some ob =>
      (false,
        if MapPosition.distance ob src < 16 then
          match astar g src (resolve_destination g dst0).1 with
          | some positions =>
            match positions[1]? with
            | some p => position_of_mapPosition p
            | none => target_pos
          | none => target_pos
        else target_pos)
    | none => (close_enough, target_pos)
  else (close_enough, target_pos)

/-! ## Theorems -/

/-- Helper: the two components of `mapPosition_of_position` are clamped into
range. -/
theorem clamp_component_bounds (v : ℚ) (m : Int) (hm : 0 ≤ m) :
    0 ≤ min ⌊max |v| 0⌋ m ∧ min ⌊max |v| 0⌋ m ≤ m := by
  constructor
  · apply le_min
    · exact Int.floor_nonneg.mpr (le_max_right _ _)
    · exact hm
  · exact min_le_right _ _

/-- C4: for every world position, including positions far outside the playable
area, the world-to-grid transform yields a cell with x in [0, 512) and
y in [0, 256). -/
theorem world_to_grid_in_bounds (p : Position) :
    0 ≤ (mapPosition_of_position p).x ∧ (mapPosition_of_position p).x < 512 ∧
    0 ≤ (mapPosition_of_position p).y ∧ (mapPosition_of_position p).y < 256 := by
  have hx := clamp_component_bounds ((p.x + BOUNDARY_X) / 64) (MAP_MAX_X - 1) (by norm_num [MAP_MAX_X])
  have hy := clamp_component_bounds ((p.y + BOUNDARY_Y) / 64) (MAP_MAX_Y - 1) (by norm_num [MAP_MAX_Y])
  rw [mapPosition_of_position]
  refine ⟨hx.1, ?_, hy.1, ?_⟩
  · have := hx.2
    simp only [MAP_MAX_X] at this ⊢
    omega
  · have := hy.2
    simp only [MAP_MAX_Y] at this ⊢
    omega

/-- Helper for C10: one coordinate of the grid-to-world-to-grid round trip. -/
theorem round_trip_component (z : Int) (b : ℚ) (m : Int) (hz0 : 0 ≤ z) (hzm : z ≤ m) :
    min ⌊max |(((z * 64 : Int) : ℚ) + 32 - b + b) / 64| 0⌋ m = z := by
  have h1 : (((z * 64 : Int) : ℚ) + 32 - b + b) / 64 = (z : ℚ) + 1 / 2 := by
    push_cast
    ring
  rw [h1]
  have hz : (0 : ℚ) ≤ (z : ℚ) + 1 / 2 := by
    have : (0 : ℚ) ≤ (z : ℚ) := by exact_mod_cast hz0
    linarith
  rw [abs_of_nonneg hz, max_eq_left hz, Int.floor_int_add]
  have : ⌊(1 / 2 : ℚ)⌋ = 0 := by norm_num
  rw [this, add_zero]
  exact min_eq_left hzm

/-- C10: for every in-range grid cell, converting it to its world-space centre
and back to a grid cell is the identity. -/
theorem grid_world_round_trip (p : MapPosition) (hx0 : 0 ≤ p.x) (hx1 : p.x < 512)
    (hy0 : 0 ≤ p.y) (hy1 : p.y < 256) :
    mapPosition_of_position (position_of_mapPosition p) = p := by
  obtain ⟨px, py⟩ := p
  dsimp only at hx0 hx1 hy0 hy1
  rw [mapPosition_of_position, position_of_mapPosition]
  have hx := round_trip_component px BOUNDARY_X (MAP_MAX_X - 1) hx0 (by simp only [MAP_MAX_X]; omega)
  have hy := round_trip_component py BOUNDARY_Y (MAP_MAX_Y - 1) hy0 (by simp only [MAP_MAX_Y]; omega)
  simp only [MapPosition.mk.injEq]
  exact ⟨hx, hy⟩

/-- C10 witness: the round trip at the concrete cell (5, 7). -/
theorem grid_world_round_trip_witness :
    mapPosition_of_position (position_of_mapPosition ⟨5, 7⟩) = ⟨5, 7⟩ :=
  grid_world_round_trip ⟨5, 7⟩ (by decide) (by decide) (by decide) (by decide)

/-! ### C2: symmetry of the line-blocked check -/

/-- Helper: `findSome?` yields a value iff some list element does. -/
theorem findSome_isSome_iff {α β : Type} (f : α → Option β) (l : List α) :
    ((l.findSome? f).isSome = true) ↔ ∃ x ∈ l, (f x).isSome = true := by
  induction l with
  | nil => simp [List.findSome?]
  | cons a t ih =>
    rw [List.findSome?]
    cases hfa : f a <;> simp [hfa, ih]

/-- C2 counterexample: over the terrain matrix blocking only cell (1, 0), the
line from (0, 0) to (2, 1) rasterizes through (1, 0) and is blocked, while the
reverse line rasterizes through (1, 1) instead and is clear.  The line-blocked
check is therefore not symmetric. -/
theorem obstacle_between_not_symmetric :
    (obstacle_between cex_grid ⟨0, 0⟩ ⟨2, 1⟩).isSome = true ∧
    (obstacle_between cex_grid ⟨2, 1⟩ ⟨0, 0⟩).isSome = false := by decide

/-- C2 amended: the line-blocked check is symmetric for those cell pairs whose
forward and reverse rasterized lines visit the same set of cells (the general
claim fails because Bresenham's raster from a to b need not equal the raster
from b to a; see the counterexample). -/
theorem obstacle_between_symmetric_of_same_raster (g : Grid) (a b : MapPosition)
    (h1 : bresenham (a.x, a.y) (b.x, b.y) ⊆ bresenham (b.x, b.y) (a.x, a.y))
    (h2 : bresenham (b.x, b.y) (a.x, a.y) ⊆ bresenham (a.x, a.y) (b.x, b.y)) :
    ((obstacle_between g a b).isSome = true ↔ (obstacle_between g b a).isSome = true) := by
  rw [obstacle_between, obstacle_between, findSome_isSome_iff, findSome_isSome_iff]
  constructor
  · rintro ⟨x, hx, hfx⟩
    exact ⟨x, h1 hx, hfx⟩
  · rintro ⟨x, hx, hfx⟩
    exact ⟨x, h2 hx, hfx⟩

/-- C2 amended witness: the horizontal pair (0,0)-(2,0) rasterizes to the same
cells in both directions, so the blocked checks agree there. -/
theorem obstacle_between_symmetric_witness :
    ((obstacle_between cex_grid ⟨0, 0⟩ ⟨2, 0⟩).isSome = true ↔
      (obstacle_between cex_grid ⟨2, 0⟩ ⟨0, 0⟩).isSome = true) :=
  obstacle_between_symmetric_of_same_raster cex_grid ⟨0, 0⟩ ⟨2, 0⟩ (by decide) (by decide)

/-! ### C1, C5: the command interpreter -/

/-- Helper: a string starts with any of its initial segments. -/
theorem starts_with_append (p t : List Char) : starts_with (p ++ t) p = true := by
  induction p with
  | nil => cases t <;> rfl
  | cons c cs ih => simp [starts_with, ih]

/-- Helper: splitting skips over a whitespace-free chunk, accumulating it. -/
theorem split_ws_aux_nonws (w : List Char) :
    ∀ acc s, (∀ c ∈ w, rust_is_whitespace c = false) →
      split_ws_aux (w ++ s) acc = split_ws_aux s (w.reverse ++ acc) := by
  induction w with
  | nil => intro acc s h; simp
  | cons c cs ih =>
    intro acc s h
    have hc : rust_is_whitespace c = false := h c (by simp)
    simp only [List.cons_append, split_ws_aux, hc, Bool.false_eq_true, if_false]
    show split_ws_aux (cs ++ s) (c :: acc) = split_ws_aux s ((c :: cs).reverse ++ acc)
    rw [ih (c :: acc) s (fun x hx => h x (by simp [hx]))]
    simp

/-- Helper: `split_whitespace` of a word, one space, and a second word. -/
theorem split_whitespace_two_words (w a : List Char)
    (hw : ∀ c ∈ w, rust_is_whitespace c = false) (hwne : w ≠ [])
    (ha : ∀ c ∈ a, rust_is_whitespace c = false) (hane : a ≠ []) :
    split_whitespace (w ++ ' ' :: a) = [w, a] := by
  rw [split_whitespace, split_ws_aux_nonws w [] (' ' :: a) hw]
  have hsp : rust_is_whitespace ' ' = true := by decide
  simp only [split_ws_aux, hsp, if_true, List.append_nil]
  rw [if_neg (by simp [hwne])]
  have h2 : split_ws_aux (a ++ []) [] = split_ws_aux [] (a.reverse ++ []) :=
    split_ws_aux_nonws a [] [] ha
  simp only [List.append_nil] at h2
  rw [h2]
  simp only [split_ws_aux, List.append_nil]
  rw [if_neg (by simp [hane])]
  simp

/-- Helper: a wings request message is never the help command (wrong length). -/
theorem wings_msg_ne_help (arg : List Char) : cmd_wings ++ ' ' :: arg ≠ cmd_help := by
  intro heq
  have h1 := congrArg List.length heq
  rw [List.length_append] at h1
  have h2 : cmd_wings.length = 10 := by rfl
  have h3 : cmd_help.length = 9 := by rfl
  rw [h2, h3, List.length_cons] at h1
  omega

/-- Helper: a wings request message is never the version command (character 5
is w, not v). -/
theorem wings_msg_ne_version (arg : List Char) : cmd_wings ++ ' ' :: arg ≠ cmd_version := by
  intro heq
  have h1 : (cmd_wings ++ ' ' :: arg)[5]? = cmd_version[5]? := by rw [heq]
  have h2 : (cmd_wings ++ ' ' :: arg)[5]? = some 'w' := by rfl
  have h3 : cmd_version[5]? = some 'v' := by rfl
  rw [h2, h3] at h1
  exact absurd h1 (by decide)

/-- Helper: evaluation of the interpreter on a wings request whose argument
is one whitespace-free word. -/
theorem wings_parse_eq (M C : Nat) (user arg : List Char) (hne : arg ≠ [])
    (hws : ∀ c ∈ arg, rust_is_whitespace c = false) :
    parse_command M ⟨cmd_wings ++ ' ' :: arg, user, C⟩ =
      some (if 0 < C then Except.error (BadCommand.AlreadyWinged user C)
        else
          match parse_u8 arg with
          | none => Except.error (BadCommand.Unknown (cmd_wings ++ ' ' :: arg))
          | some n =>
            if M < n then Except.error (BadCommand.TooManyWings user M)
            else if n = 0 then Except.error (BadCommand.Unknown (cmd_wings ++ ' ' :: arg))
            else Except.ok (Response.add_wings user n)) := by
  have hpre : starts_with (cmd_wings ++ ' ' :: arg) cmd_prefix_gc = true := by
    have hsplit : cmd_wings ++ ' ' :: arg = cmd_prefix_gc ++ ("-wings".toList ++ ' ' :: arg) := by
      rw [← List.append_assoc]
      rfl
    rw [hsplit]
    exact starts_with_append _ _
  have hwpre : starts_with (cmd_wings ++ ' ' :: arg) cmd_wings = true :=
    starts_with_append _ _
  have hwchars : ∀ c ∈ cmd_wings, rust_is_whitespace c = false := by decide
  rw [parse_command]
  dsimp only
  rw [if_pos hpre, parse_command_impl]
  dsimp only
  rw [if_neg (wings_msg_ne_help arg), if_neg (wings_msg_ne_version arg), if_pos hwpre,
    split_whitespace_two_words cmd_wings arg hwchars (by decide) hws hne]
  rfl

/-- C1: for every maxWings M, message of the form `--gc-wings <arg>`, user and
current count C, the wings command succeeds with action SetWings(N) iff C = 0
and the argument parses (as a u8) to N with 0 < N ≤ M; otherwise the failure
follows the order of checks: AlreadyWinged(user, C) when C > 0, else
Unknown(message) when the argument is unparsable or zero, else
TooManyWings(user, M) when N > M. -/
theorem wings_command_correct (M C : Nat) (user arg : List Char) (hne : arg ≠ [])
    (hws : ∀ c ∈ arg, rust_is_whitespace c = false) :
    (∀ n : Nat,
      (∃ resp, parse_command M ⟨cmd_wings ++ ' ' :: arg, user, C⟩ = some (Except.ok resp) ∧
        resp.kind = some (ResponseKind.SetWings n)) ↔
      (C = 0 ∧ parse_u8 arg = some n ∧ 0 < n ∧ n ≤ M)) ∧
    (0 < C → parse_command M ⟨cmd_wings ++ ' ' :: arg, user, C⟩ =
        some (Except.error (BadCommand.AlreadyWinged user C))) ∧
    (C = 0 → (parse_u8 arg = none ∨ parse_u8 arg = some 0) →
      parse_command M ⟨cmd_wings ++ ' ' :: arg, user, C⟩ =
        some (Except.error (BadCommand.Unknown (cmd_wings ++ ' ' :: arg)))) ∧
    (∀ n, C = 0 → parse_u8 arg = some n → M < n →
      parse_command M ⟨cmd_wings ++ ' ' :: arg, user, C⟩ =
        some (Except.error (BadCommand.TooManyWings user M))) := by
  have hp := wings_parse_eq M C user arg hne hws
  refine ⟨?_, ?_, ?_, ?_⟩
  · intro n
    constructor
    · rintro ⟨resp, hr, hk⟩
      by_cases hC : 0 < C
      · rw [if_pos hC] at hp
        rw [hp] at hr
        simp at hr
      · rw [if_neg hC] at hp
        rcases hu : parse_u8 arg with _ | k
        · rw [hu] at hp
          rw [hp] at hr
          simp at hr
        · rw [hu] at hp
          have hp2 : parse_command M ⟨cmd_wings ++ ' ' :: arg, user, C⟩ =
              some (if M < k then Except.error (BadCommand.TooManyWings user M)
                else if k = 0 then Except.error (BadCommand.Unknown (cmd_wings ++ ' ' :: arg))
                else Except.ok (Response.add_wings user k)) := hp
          by_cases hM : M < k
          · rw [if_pos hM] at hp2
            rw [hp2] at hr
            simp at hr
          · rw [if_neg hM] at hp2
            by_cases hk0 : k = 0
            · rw [if_pos hk0] at hp2
              rw [hp2] at hr
              simp at hr
            · rw [if_neg hk0] at hp2
              rw [hp2] at hr
              simp only [Option.some_inj, Except.ok.injEq] at hr
              rw [← hr] at hk
              simp only [Response.add_wings, Option.some_inj, ResponseKind.SetWings.injEq] at hk
              subst hk
              exact ⟨by omega, rfl, by omega, by omega⟩
    · rintro ⟨hC0, hu, hn0, hnM⟩
      rw [if_neg (by omega), hu] at hp
      have hp2 : parse_command M ⟨cmd_wings ++ ' ' :: arg, user, C⟩ =
          some (if M < n then Except.error (BadCommand.TooManyWings user M)
            else if n = 0 then Except.error (BadCommand.Unknown (cmd_wings ++ ' ' :: arg))
            else Except.ok (Response.add_wings user n)) := hp
      rw [if_neg (by omega), if_neg (by omega)] at hp2
      exact ⟨Response.add_wings user n, hp2, rfl⟩
  · intro hC
    rw [if_pos hC] at hp
    exact hp
  · intro hC0 hu
    rw [if_neg (by omega)] at hp
    rcases hu with hu | hu
    · rw [hu] at hp
      exact hp
    · rw [hu] at hp
      have hp2 : parse_command M ⟨cmd_wings ++ ' ' :: arg, user, C⟩ =
          some (if M < 0 then Except.error (BadCommand.TooManyWings user M)
            else if 0 = 0 then Except.error (BadCommand.Unknown (cmd_wings ++ ' ' :: arg))
            else Except.ok (Response.add_wings user 0)) := hp
      rw [if_neg (by omega), if_pos rfl] at hp2
      exact hp2
  · intro n hC0 hu hM
    rw [if_neg (by omega), hu] at hp
    have hp2 : parse_command M ⟨cmd_wings ++ ' ' :: arg, user, C⟩ =
        some (if M < n then Except.error (BadCommand.TooManyWings user M)
          else if n = 0 then Except.error (BadCommand.Unknown (cmd_wings ++ ' ' :: arg))
          else Except.ok (Response.add_wings user n)) := hp
    rw [if_pos hM] at hp2
    exact hp2

/-- C1 witness: `--gc-wings 3` from a user with no wings and max 5 succeeds
with SetWings 3. -/
theorem wings_command_correct_witness :
    ∃ resp, parse_command 5 ⟨cmd_wings ++ ' ' :: "3".toList, "X".toList, 0⟩ =
        some (Except.ok resp) ∧ resp.kind = some (ResponseKind.SetWings 3) :=
  ((wings_command_correct 5 0 "X".toList "3".toList (by decide) (by decide)).1 3).mpr
    ⟨rfl, by decide, by decide, by decide⟩

/-- C5: `--gc-call-off` succeeds with action ClearWings iff the current count
is positive, and fails with NoWings(user) exactly when the count is zero. -/
theorem call_off_correct (M C : Nat) (user : List Char) :
    ((∃ resp, parse_command M ⟨cmd_call_off, user, C⟩ = some (Except.ok resp) ∧
        resp.kind = some ResponseKind.ClearWings) ↔ 0 < C) ∧
    (C = 0 → parse_command M ⟨cmd_call_off, user, C⟩ =
      some (Except.error (BadCommand.NoWings user))) := by
  have h1 : starts_with cmd_call_off cmd_prefix_gc = true := by decide
  have h2 : ¬(cmd_call_off = cmd_help) := by decide
  have h3 : ¬(cmd_call_off = cmd_version) := by decide
  have h4 : ¬(starts_with cmd_call_off cmd_wings = true) := by decide
  have hp : parse_command M ⟨cmd_call_off, user, C⟩ =
      some (if 0 < C then Except.ok (Response.clear_wings user)
        else Except.error (BadCommand.NoWings user)) := by
    rw [parse_command]
    dsimp only
    rw [if_pos h1, parse_command_impl]
    dsimp only
    rw [if_neg h2, if_neg h3, if_neg h4, if_pos rfl]
  constructor
  · constructor
    · rintro ⟨resp, hr, hk⟩
      by_cases hC : 0 < C
      · exact hC
      · rw [if_neg hC] at hp
        rw [hp] at hr
        simp at hr
    · intro hC
      rw [if_pos hC] at hp
      exact ⟨Response.clear_wings user, hp, rfl⟩
  · intro hC0
    rw [if_neg (by omega)] at hp
    exact hp

/-- C5 witness: call-off with 4 wings succeeds; with 0 wings it fails with
NoWings. -/
theorem call_off_correct_witness :
    (∃ resp, parse_command 5 ⟨cmd_call_off, "F".toList, 4⟩ = some (Except.ok resp) ∧
      resp.kind = some ResponseKind.ClearWings) ∧
    parse_command 5 ⟨cmd_call_off, "xyz".toList, 0⟩ =
      some (Except.error (BadCommand.NoWings "xyz".toList)) :=
  ⟨(call_off_correct 5 4 "F".toList).1.mpr (by decide),
   (call_off_correct 5 0 "xyz".toList).2 rfl⟩

/-! ### C8: the shutdown flag is monotonic -/

/-- C8: a ShutdownFlag never transitions from set back to unset: the read
leaves the cell unchanged, the drop stores true, so both operations keep a
set flag set; and dropping a flag sets it. -/
theorem shutdown_flag_monotonic (f : ShutdownFlag) :
    (ShutdownFlag.read f).2 = f ∧ ShutdownFlag.drop_store f = true ∧
    (f = true → (ShutdownFlag.read f).2 = true ∧ ShutdownFlag.drop_store f = true) :=
  ⟨rfl, rfl, fun h => ⟨h, rfl⟩⟩

/-- C8 witness: at an already-set flag both operations leave it set. -/
theorem shutdown_flag_monotonic_witness :
    (ShutdownFlag.read true).2 = true ∧ ShutdownFlag.drop_store true = true :=
  (shutdown_flag_monotonic true).2.2 rfl

/-! ### C9: non-prefixed messages have no effect -/

/-- C9: a chat message that does not start with `--gc` yields None from the
interpreter, and the fleet manager's handling of it leaves the registry (and
the whole state) unchanged and sends no chat reply. -/
theorem non_prefixed_message_no_effect (M : Nat) (s : ServerState) (id : Nat)
    (user : List Char) (C : Nat) (msg : List Char)
    (h : starts_with msg cmd_prefix_gc = false) :
    parse_command M ⟨msg, user, C⟩ = none ∧
    handle_message M s id msg = (s, []) := by
  have hpc : ∀ u c, parse_command M ⟨msg, u, c⟩ = none := by
    intro u c
    rw [parse_command]
    dsimp only
    rw [h]
    simp
  refine ⟨hpc user C, ?_⟩
  rcases hn : player_name s id with _ | name
  · simp only [handle_message, hn]
  · simp only [handle_message, hn, hpc]

/-- C9 witness: the message `--game-stats` is ignored at a concrete state. -/
theorem non_prefixed_message_no_effect_witness :
    parse_command 5 ⟨"--game-stats".toList, "derps".toList, 3⟩ = none ∧
    handle_message 5 ⟨[(1, "bob".toList)], []⟩ 1 "--game-stats".toList =
      (⟨[(1, "bob".toList)], []⟩, []) :=
  non_prefixed_message_no_effect 5 ⟨[(1, "bob".toList)], []⟩ 1 "derps".toList 3
    "--game-stats".toList (by decide)

/-! ### C7: the registry invariant -/

/-- Helper: an interpreter success carrying a SetWings action implies the
current count was zero and the requested count is in (0, max]. -/
theorem parse_ok_set_wings (M C n : Nat) (msgv user : List Char) (resp : Response)
    (hok : parse_command M ⟨msgv, user, C⟩ = some (Except.ok resp))
    (hk : resp.kind = some (ResponseKind.SetWings n)) :
    C = 0 ∧ 0 < n ∧ n ≤ M := by
  rw [parse_command] at hok
  dsimp only at hok
  by_cases h1 : starts_with msgv cmd_prefix_gc = true
  · rw [if_pos h1, Option.some_inj] at hok
    rw [parse_command_impl] at hok
    dsimp only at hok
    by_cases h2 : msgv = cmd_help
    · rw [if_pos h2] at hok
      simp only [Except.ok.injEq] at hok
      rw [← hok] at hk
      exact absurd hk (by simp [Response.just_message])
    · rw [if_neg h2] at hok
      by_cases h3 : msgv = cmd_version
      · rw [if_pos h3] at hok
        simp only [Except.ok.injEq] at hok
        rw [← hok] at hk
        exact absurd hk (by simp [Response.just_message])
      · rw [if_neg h3] at hok
        by_cases h4 : starts_with msgv cmd_wings = true
        · rw [if_pos h4] at hok
          by_cases h5 : 0 < C
          · rw [if_pos h5] at hok
            exact absurd hok (by simp)
          · rw [if_neg h5] at hok
            rcases h6 : (split_whitespace msgv)[1]?.bind parse_u8 with _ | k
            · rw [h6] at hok
              exact absurd hok (by simp)
            · rw [h6] at hok
              have hok2 : (if M < k then Except.error (BadCommand.TooManyWings user M)
                  else if k = 0 then Except.error (BadCommand.Unknown msgv)
                  else Except.ok (Response.add_wings user k)) = Except.ok resp := hok
              by_cases h7 : M < k
              · rw [if_pos h7] at hok2
                exact absurd hok2 (by simp)
              · rw [if_neg h7] at hok2
                by_cases h8 : k = 0
                · rw [if_pos h8] at hok2
                  exact absurd hok2 (by simp)
                · rw [if_neg h8] at hok2
                  simp only [Except.ok.injEq] at hok2
                  rw [← hok2] at hk
                  simp only [Response.add_wings, Option.some_inj,
                    ResponseKind.SetWings.injEq] at hk
                  omega
        · rw [if_neg h4] at hok
          by_cases h9 : msgv = cmd_call_off
          · rw [if_pos h9] at hok
            by_cases h10 : 0 < C
            · rw [if_pos h10] at hok
              simp only [Except.ok.injEq] at hok
              rw [← hok] at hk
              exact absurd hk (by simp [Response.clear_wings])
            · rw [if_neg h10] at hok
              exact absurd hok (by simp)
          · rw [if_neg h9] at hok
            exact absurd hok (by simp)
  · rw [if_neg h1] at hok
    exact absurd hok (by simp)

/-- Helper: one packet-handling step preserves the registry invariant. -/
theorem wingmen_inv_step (M : Nat) (a : Bool) (s : ServerState) (pkt : ServerPacket)
    (h : WingmenInv M s) : WingmenInv M (handle_packet M a s pkt).1 := by
  cases pkt with
  | ChatPublic id text =>
    show WingmenInv M (handle_message M s id text).1
    rcases hn : player_name s id with _ | name
    · simp only [handle_message, hn]
      exact h
    · rcases hpc : parse_command M ⟨text, name, wingmen_count s id⟩ with _ | res
      · simp only [handle_message, hn, hpc]
        exact h
      · rcases res with er | resp
        · simp only [handle_message, hn, hpc]
          exact h
        · rcases hk : resp.kind with _ | k
          · simp only [handle_message, hn, hpc, hk]
            exact h
          · rcases k with n | _
            · simp only [handle_message, hn, hpc, hk]
              obtain ⟨hC0, hn0, hnM⟩ := parse_ok_set_wings M (wingmen_count s id) n
                text name resp hpc hk
              show WingmenInv M (spawn_wingmen s id n)
              rw [spawn_wingmen, hn]
              intro e he
              rcases List.mem_cons.mp he with he1 | he2
              · rw [he1]
                simp only [List.length_replicate]
                exact ⟨hn0, hnM⟩
              · exact h e (List.mem_of_mem_filter he2)
            · simp only [handle_message, hn, hpc, hk]
              show WingmenInv M (clear_wingmen s id)
              intro e he
              exact h e (List.mem_of_mem_filter he)
  | PlayerLeave id =>
    show WingmenInv M (clear_wingmen s id)
    intro e he
    exact h e (List.mem_of_mem_filter he)
  | PlayerNew name => exact h
  | Other => exact h

/-- Helper: under the invariant, a key is present iff its count is positive. -/
theorem wingmen_key_iff (M : Nat) (s : ServerState) (h : WingmenInv M s) (k : Nat) :
    (∃ l, (k, l) ∈ s.wingmen) ↔ 0 < wingmen_count s k := by
  rw [wingmen_count]
  rcases hf : s.wingmen.find? (fun e => e.1 == k) with _ | e
  · rw [hf]
    simp only [Option.map_none', Option.getD_none]
    constructor
    · rintro ⟨l, hl⟩
      have := List.find?_eq_none.mp hf (k, l) hl
      simp at this
    · intro h0
      omega
  · rw [hf]
    simp only [Option.map_some', Option.getD_some]
    constructor
    · intro _
      exact (h e (List.mem_of_find?_eq_some hf)).1
    · intro _
      have he := List.mem_of_find?_eq_some hf
      have hpe : e.1 = k := by simpa using List.find?_some hf
      exact ⟨e.2, by rw [← hpe]; exact he⟩

/-- Helper: under the invariant, every count is at most the maximum. -/
theorem wingmen_count_le (M : Nat) (s : ServerState) (h : WingmenInv M s) (k : Nat) :
    wingmen_count s k ≤ M := by
  rw [wingmen_count]
  rcases hf : s.wingmen.find? (fun e => e.1 == k) with _ | e
  · rw [hf]
    simp
  · rw [hf]
    simp only [Option.map_some', Option.getD_some]
    exact (h e (List.mem_of_find?_eq_some hf)).2

/-- C7: in every reachable fleet-manager state, every registry entry holds a
non-empty flag list of length at most maxWings; equivalently a player key is
present iff that player's count is positive, and no count exceeds maxWings.
The invariant holds initially and is preserved by every packet-handling
step. -/
theorem server_registry_invariant (M : Nat) (a : Bool) (s : ServerState)
    (h : ServerReachable M a s) :
    (∀ e ∈ s.wingmen, 0 < e.2.length ∧ e.2.length ≤ M) ∧
    (∀ k, (∃ l, (k, l) ∈ s.wingmen) ↔ 0 < wingmen_count s k) ∧
    (∀ k, wingmen_count s k ≤ M) := by
  have hin : WingmenInv M s := by
    induction h with
    | init players =>
      intro e he
      simp at he
    | step s0 pkt hr ih => exact wingmen_inv_step M a s0 pkt ih
    | world s0 players hr ih =>
      intro e he
      exact ih e he
  exact ⟨hin, fun k => wingmen_key_iff M s hin k, fun k => wingmen_count_le M s hin k⟩

/-- C7 witness: after a handled `--gc-wings 2` command from a known player,
the key-presence iff and the count bound hold at the resulting state. -/
theorem server_registry_invariant_witness :
    ((∃ l, (1, l) ∈ ((handle_packet 5 true ⟨[(1, "bob".toList)], []⟩
        (ServerPacket.ChatPublic 1 "--gc-wings 2".toList)).1).wingmen) ↔
      0 < wingmen_count ((handle_packet 5 true ⟨[(1, "bob".toList)], []⟩
        (ServerPacket.ChatPublic 1 "--gc-wings 2".toList)).1) 1) ∧
    wingmen_count ((handle_packet 5 true ⟨[(1, "bob".toList)], []⟩
      (ServerPacket.ChatPublic 1 "--gc-wings 2".toList)).1) 1 ≤ 5 := by
  have h := server_registry_invariant 5 true _
    (ServerReachable.step ⟨[(1, "bob".toList)], []⟩
      (ServerPacket.ChatPublic 1 "--gc-wings 2".toList) (ServerReachable.init _))
  exact ⟨h.2.1 1, h.2.2 1⟩

/-! ### C3: correctness of the A* search -/

/-- Helper: at most 8 neighbour cells. -/
theorem adjacent_positions_length_le (g : Grid) (p : MapPosition) :
    (adjacent_positions g p).length ≤ 8 := by
  rw [adjacent_positions]
  refine le_trans (List.length_filter_le _ _) ?_
  simp [neighbor_offsets]

/-- Helper: neighbour cells are unoccupied. -/
theorem mem_adjacent_unoccupied (g : Grid) (p q : MapPosition)
    (h : q ∈ adjacent_positions g p) : is_occupied g q = false := by
  rw [adjacent_positions] at h
  have h2 := (List.mem_filter.mp h).2
  simpa using h2

/-- Helper: unoccupied cells are in bounds. -/
theorem unoccupied_mem_cells (g : Grid) (q : MapPosition)
    (h : is_occupied g q = false) : q ∈ in_bounds_cells := by
  rw [is_occupied, MAP_MAX_X, MAP_MAX_Y] at h
  simp only [Bool.or_eq_false_iff, decide_eq_false_iff_not, not_lt, not_le] at h
  rw [in_bounds_cells]
  simp only [Finset.mem_image, Finset.mem_product, Finset.mem_Icc]
  refine ⟨(q.x, q.y), ⟨⟨?_, ?_⟩, ?_, ?_⟩, ?_⟩
  · exact h.1.1.1.1
  · omega
  · exact h.1.1.2
  · omega
  · rfl

/-- Helper: `selectMin` returns none exactly on the empty frontier. -/
theorem selectMin_none_iff (goal : MapPosition) (l : List (List MapPosition)) :
    selectMin goal l = none ↔ l = [] := by
  cases l with
  | nil => simp [selectMin]
  | cons e es =>
    rw [selectMin]
    constructor
    · intro h
      cases hs : selectMin goal es with
      | none =>
        rw [hs] at h
        simp at h
      | some m =>
        rw [hs] at h
        obtain ⟨mm, mrest⟩ := m
        dsimp at h
        by_cases hc : fcost goal e ≤ fcost goal mm
        · rw [if_pos hc] at h
          simp at h
        · rw [if_neg hc] at h
          simp at h
    · intro h
      simp at h

/-- Helper: extracting an entry permutes the frontier. -/
theorem selectMin_perm (goal : MapPosition) (l : List (List MapPosition))
    (e : List MapPosition) (rest : List (List MapPosition))
    (h : selectMin goal l = some (e, rest)) : l.Perm (e :: rest) := by
  induction l generalizing e rest with
  | nil => simp [selectMin] at h
  | cons a as ih =>
    rw [selectMin] at h
    cases hs : selectMin goal as with
    | none =>
      rw [hs] at h
      simp only [Option.some_inj, Prod.mk.injEq] at h
      obtain ⟨he, hrest⟩ := h
      have has : as = [] := (selectMin_none_iff goal as).mp hs
      subst he
      subst hrest
      subst has
      exact List.Perm.refl _
    | some m =>
      obtain ⟨mm, mrest⟩ := m
      rw [hs] at h
      dsimp at h
      by_cases hc : fcost goal a ≤ fcost goal mm
      · rw [if_pos hc] at h
        simp only [Option.some_inj, Prod.mk.injEq] at h
        obtain ⟨he, hrest⟩ := h
        subst he
        subst hrest
        exact List.Perm.refl _
      · rw [if_neg hc] at h
        simp only [Option.some_inj, Prod.mk.injEq] at h
        obtain ⟨he, hrest⟩ := h
        subst he
        subst hrest
        have h1 : (a :: as).Perm (a :: mm :: mrest) := (ih mm mrest hs).cons a
        have h2 : (a :: mm :: mrest).Perm (mm :: a :: mrest) := List.Perm.swap mm a mrest
        exact h1.trans h2

/-- Helper: reversed paths are nonempty. -/
theorem revPath_ne_nil (g : Grid) (start : MapPosition) (e : List MapPosition)
    (h : RevPath g start e) : e ≠ [] := by
  cases h with
  | base => simp
  | cons q e _ _ => simp

/-- Helper: a reversed path ends (as a list) at the start cell. -/
theorem revPath_getLast (g : Grid) (start : MapPosition) (e : List MapPosition)
    (h : RevPath g start e) : e.getLast? = some start := by
  induction h with
  | base => rfl
  | cons q e hr hadj ih =>
    cases e with
    | nil => exact absurd rfl (revPath_ne_nil g start [] hr)
    | cons b l =>
      rw [List.getLast?_cons_cons]
      exact ih

/-- Helper: every cell of a reversed path is the start or unoccupied. -/
theorem revPath_mem (g : Grid) (start : MapPosition) (e : List MapPosition)
    (h : RevPath g start e) : ∀ q ∈ e, q = start ∨ is_occupied g q = false := by
  induction h with
  | base =>
    intro q hq
    simp at hq
    exact Or.inl hq
  | cons p e hr hadj ih =>
    intro q hq
    rcases List.mem_cons.mp hq with h1 | h1
    · subst h1
      exact Or.inr (mem_adjacent_unoccupied g e.headI q hadj)
    · exact ih q h1

/-- Helper: consecutive cells of a reversed path are adjacent (each head is
an unoccupied neighbour of the next cell). -/
theorem revPath_chain (g : Grid) (start : MapPosition) (e : List MapPosition)
    (h : RevPath g start e) :
    List.Chain' (fun a b => a ∈ adjacent_positions g b) e := by
  induction h with
  | base => simp
  | cons q e hr hadj ih =>
    cases e with
    | nil => exact absurd rfl (revPath_ne_nil g start [] hr)
    | cons b l =>
      rw [List.chain'_cons]
      exact ⟨hadj, ih⟩

/-- Helper: the head of a reversed path is reachable from the start. -/
theorem revPath_reach (g : Grid) (start : MapPosition) (e : List MapPosition)
    (h : RevPath g start e) : Relation.ReflTransGen (Step g) start e.headI := by
  induction h with
  | base => exact Relation.ReflTransGen.refl
  | cons q e hr hadj ih => exact Relation.ReflTransGen.tail ih hadj

/-- Helper: from inside a successor-closed set avoiding the goal, the goal is
unreachable. -/
theorem closed_no_reach (g : Grid) (goal : MapPosition) (S : List MapPosition)
    (hcl : ∀ v ∈ S, ∀ q ∈ adjacent_positions g v, q ∈ S) (hg : goal ∉ S) :
    ∀ p ∈ S, ¬ Relation.ReflTransGen (Step g) p goal := by
  intro p hp hreach
  refine absurd hp ?_
  clear hp
  induction hreach using Relation.ReflTransGen.head_induction_on with
  | refl => exact hg
  | head h1 h2 ih =>
    intro ha
    exact ih (hcl _ ha _ h1)

/-- Helper: A* soundness: a returned path is the reverse of a valid reversed
path from the start whose head is the goal. -/
theorem astar_loop_sound (g : Grid) (start goal : MapPosition) :
    ∀ fuel frontier visited,
      (∀ e ∈ frontier, RevPath g start e) →
      ∀ path, astar_loop g goal fuel frontier visited = some path →
      ∃ e, RevPath g start e ∧ e.headI = goal ∧ path = e.reverse := by
  intro fuel
  induction fuel with
  | zero =>
    intro frontier visited h path hp
    simp [astar_loop] at hp
  | succ n ih =>
    intro frontier visited h path hp
    rw [astar_loop] at hp
    cases hs : selectMin goal frontier with
    | none =>
      rw [hs] at hp
      simp at hp
    | some er =>
      obtain ⟨e, rest⟩ := er
      rw [hs] at hp
      have hperm := selectMin_perm goal frontier e rest hs
      have hmem : ∀ e1 ∈ e :: rest, RevPath g start e1 :=
        fun e1 he1 => h e1 (hperm.mem_iff.mpr he1)
      have hp2 : (if e.headI ∈ visited then astar_loop g goal n rest visited
          else if e.headI = goal then some e.reverse
          else astar_loop g goal n
            (rest ++ (adjacent_positions g e.headI).map (fun q => q :: e))
            (e.headI :: visited)) = some path := hp
      by_cases hv : e.headI ∈ visited
      · rw [if_pos hv] at hp2
        exact ih rest visited (fun e1 he1 => hmem e1 (List.mem_cons_of_mem _ he1)) path hp2
      · rw [if_neg hv] at hp2
        by_cases hg : e.headI = goal
        · rw [if_pos hg] at hp2
          simp only [Option.some_inj] at hp2
          exact ⟨e, hmem e (List.mem_cons_self _ _), hg, hp2.symm⟩
        · rw [if_neg hg] at hp2
          apply ih _ _ _ path hp2
          intro e1 he1
          rcases List.mem_append.mp he1 with h1 | h1
          · exact hmem e1 (List.mem_cons_of_mem _ h1)
          · obtain ⟨q, hq, rfl⟩ := List.mem_map.mp h1
            exact RevPath.cons q e (hmem e (List.mem_cons_self _ _)) hq

/-- Helper: A* completeness: if the loop exhausts its frontier (the fuel is
large enough that it cannot run out first), the goal is unreachable from every
visited cell and every frontier head.  The invariants: frontier entries are
nonempty with heads in the finite candidate set `U`; every successor of a
visited cell is visited or a frontier head; the goal is never visited; and the
measure `frontier.length + 9 * #unvisited` is below the remaining fuel. -/
theorem astar_loop_complete (g : Grid) (goal : MapPosition) (U : Finset MapPosition)
    (hU : ∀ p q : MapPosition, q ∈ adjacent_positions g p → q ∈ U) :
    ∀ fuel frontier visited,
      (∀ e ∈ frontier, e ≠ [] ∧ e.headI ∈ U) →
      (∀ v ∈ visited, ∀ q ∈ adjacent_positions g v,
        q ∈ visited ∨ ∃ e ∈ frontier, e.headI = q) →
      goal ∉ visited →
      frontier.length + 9 * (U \ visited.toFinset).card < fuel →
      astar_loop g goal fuel frontier visited = none →
      ∀ p, (p ∈ visited ∨ ∃ e ∈ frontier, e.headI = p) →
        ¬ Relation.ReflTransGen (Step g) p goal := by
  intro fuel
  induction fuel with
  | zero =>
    intro frontier visited hfr hcl hg hm hnone p hp hreach
    omega
  | succ n ih =>
    intro frontier visited hfr hcl hg hm hnone p hp
    rw [astar_loop] at hnone
    cases hs : selectMin goal frontier with
    | none =>
      have hfe : frontier = [] := (selectMin_none_iff goal frontier).mp hs
      subst hfe
      have hcl2 : ∀ v ∈ visited, ∀ q ∈ adjacent_positions g v, q ∈ visited := by
        intro v hv q hq
        rcases hcl v hv q hq with h1 | ⟨e, he, _⟩
        · exact h1
        · simp at he
      rcases hp with hp | ⟨e, he, _⟩
      · exact closed_no_reach g goal visited hcl2 hg p hp
      · simp at he
    | some er =>
      obtain ⟨e, rest⟩ := er
      rw [hs] at hnone
      have hperm := selectMin_perm goal frontier e rest hs
      have hlen : frontier.length = rest.length + 1 := by
        have hl := hperm.length_eq
        simpa using hl
      have hememb : ∀ x, x ∈ frontier ↔ x ∈ e :: rest := fun x => hperm.mem_iff
      have heU : e.headI ∈ U :=
        (hfr e ((hememb e).mpr (List.mem_cons_self _ _))).2
      have hnone2 : (if e.headI ∈ visited then astar_loop g goal n rest visited
          else if e.headI = goal then some e.reverse
          else astar_loop g goal n
            (rest ++ (adjacent_positions g e.headI).map (fun q => q :: e))
            (e.headI :: visited)) = none := hnone
      by_cases hv : e.headI ∈ visited
      · rw [if_pos hv] at hnone2
        have hclr : ∀ v ∈ visited, ∀ q ∈ adjacent_positions g v,
            q ∈ visited ∨ ∃ e1 ∈ rest, e1.headI = q := by
          intro v hv0 q hq
          rcases hcl v hv0 q hq with h1 | ⟨e1, he1, hh⟩
          · exact Or.inl h1
          · rcases List.mem_cons.mp ((hememb e1).mp he1) with h2 | h2
            · subst h2
              exact Or.inl (hh ▸ hv)
            · exact Or.inr ⟨e1, h2, hh⟩
        have hres := ih rest visited
          (fun e1 he1 => hfr e1 ((hememb e1).mpr (List.mem_cons_of_mem _ he1)))
          hclr hg (by omega) hnone2
        rcases hp with hp1 | ⟨e1, he1, hh⟩
        · exact hres p (Or.inl hp1)
        · rcases List.mem_cons.mp ((hememb e1).mp he1) with h2 | h2
          · subst h2
            exact hres p (Or.inl (hh ▸ hv))
          · exact hres p (Or.inr ⟨e1, h2, hh⟩)
      · rw [if_neg hv] at hnone2
        by_cases hgg : e.headI = goal
        · rw [if_pos hgg] at hnone2
          simp at hnone2
        · rw [if_neg hgg] at hnone2
          have hsl : ((adjacent_positions g e.headI).map (fun q => q :: e)).length ≤ 8 := by
            rw [List.length_map]
            exact adjacent_positions_length_le g e.headI
          have hveq : (e.headI :: visited).toFinset = insert e.headI visited.toFinset := by
            simp
          have hsd : U \ insert e.headI visited.toFinset =
              (U \ visited.toFinset).erase e.headI := by
            ext x
            simp only [Finset.mem_sdiff, Finset.mem_erase, Finset.mem_insert]
            tauto
          have hein : e.headI ∈ U \ visited.toFinset := by
            rw [Finset.mem_sdiff]
            exact ⟨heU, fun hx => hv (List.mem_toFinset.mp hx)⟩
          have hcard : (U \ visited.toFinset).card =
              ((U \ visited.toFinset).erase e.headI).card + 1 := by
            rw [Finset.card_erase_of_mem hein]
            have hpos := Finset.card_pos.mpr ⟨e.headI, hein⟩
            omega
          have hm2 : (rest ++ (adjacent_positions g e.headI).map (fun q => q :: e)).length +
              9 * (U \ (e.headI :: visited).toFinset).card < n := by
            rw [List.length_append, hveq, hsd]
            omega
          have hfr2 : ∀ e1 ∈ rest ++ (adjacent_positions g e.headI).map (fun q => q :: e),
              e1 ≠ [] ∧ e1.headI ∈ U := by
            intro e1 he1
            rcases List.mem_append.mp he1 with h1 | h1
            · exact hfr e1 ((hememb e1).mpr (List.mem_cons_of_mem _ h1))
            · obtain ⟨q, hq, rfl⟩ := List.mem_map.mp h1
              exact ⟨by simp, hU e.headI q hq⟩
          have hcl2 : ∀ v ∈ e.headI :: visited, ∀ q ∈ adjacent_positions g v,
              q ∈ e.headI :: visited ∨
              ∃ e1 ∈ rest ++ (adjacent_positions g e.headI).map (fun q => q :: e),
                e1.headI = q := by
            intro v hv0 q hq
            rcases List.mem_cons.mp hv0 with h1 | h1
            · subst h1
              refine Or.inr ⟨q :: e, ?_, rfl⟩
              exact List.mem_append_right _ (List.mem_map.mpr ⟨q, hq, rfl⟩)
            · rcases hcl v h1 q hq with h2 | ⟨e1, he1, hh⟩
              · exact Or.inl (List.mem_cons_of_mem _ h2)
              · rcases List.mem_cons.mp ((hememb e1).mp he1) with h3 | h3
                · subst h3
                  refine Or.inl ?_
                  rw [← hh]
                  exact List.mem_cons_self _ _
                · exact Or.inr ⟨e1, List.mem_append_left _ h3, hh⟩
          have hg2 : goal ∉ e.headI :: visited := by
            intro hx
            rcases List.mem_cons.mp hx with h1 | h1
            · exact hgg h1.symm
            · exact hg h1
          have hres := ih _ _ hfr2 hcl2 hg2 hm2 hnone2
          rcases hp with hp1 | ⟨e1, he1, hh⟩
          · exact hres p (Or.inl (List.mem_cons_of_mem _ hp1))
          · rcases List.mem_cons.mp ((hememb e1).mp he1) with h2 | h2
            · subst h2
              refine hres p (Or.inl ?_)
              rw [← hh]
              exact List.mem_cons_self _ _
            · exact hres p (Or.inr ⟨e1, List.mem_append_left _ h2, hh⟩)

/-- C3: when the A* search returns a path, it starts at `start`, ends at
`goal`, each cell is an unoccupied 8-neighbour of its predecessor (so every
cell except possibly the start is unoccupied); and it returns none iff the
goal is unreachable from the start through unoccupied 8-adjacent cells. -/
theorem astar_correct (g : Grid) (start goal : MapPosition) :
    (∀ path, astar g start goal = some path →
      path.head? = some start ∧ path.getLast? = some goal ∧
      List.Chain' (fun a b => b ∈ adjacent_positions g a) path ∧
      (∀ q ∈ path, q = start ∨ is_occupied g q = false)) ∧
    (astar g start goal = none ↔ ¬ Reach g start goal) := by
  have hfr0 : ∀ e ∈ [[start]], RevPath g start e := by
    intro e he
    simp at he
    subst he
    exact RevPath.base
  constructor
  · intro path hp
    obtain ⟨e, hrev, hhead, rfl⟩ :=
      astar_loop_sound g start goal ASTAR_FUEL [[start]] [] hfr0 path hp
    refine ⟨?_, ?_, ?_, ?_⟩
    · rw [List.head?_reverse]
      exact revPath_getLast g start e hrev
    · rw [List.getLast?_reverse]
      cases e with
      | nil => exact absurd rfl (revPath_ne_nil g start [] hrev)
      | cons a t =>
        simp only [List.head?_cons, Option.some_inj]
        exact hhead
    · rw [List.chain'_reverse]
      exact revPath_chain g start e hrev
    · intro q hq
      exact revPath_mem g start e hrev q (List.mem_reverse.mp hq)
  · constructor
    · intro hn hreach
      have hU : ∀ p q : MapPosition, q ∈ adjacent_positions g p →
          q ∈ in_bounds_cells ∪ {start} := by
        intro p q hq
        exact Finset.mem_union_left _
          (unoccupied_mem_cells g q (mem_adjacent_unoccupied g p q hq))
      have hcard : (in_bounds_cells ∪ ({start} : Finset MapPosition)).card ≤
          512 * 256 + 1 := by
        refine le_trans (Finset.card_union_le _ _) ?_
        have h1 : in_bounds_cells.card ≤ 512 * 256 := by
          rw [in_bounds_cells]
          refine le_trans Finset.card_image_le ?_
          rw [Finset.card_product]
          have hx : (Finset.Icc (0 : Int) 511).card = 512 := by
            rw [Int.card_Icc]
            rfl
          have hy : (Finset.Icc (0 : Int) 255).card = 256 := by
            rw [Int.card_Icc]
            rfl
          rw [hx, hy]
        simp only [Finset.card_singleton]
        omega
      have hm0 : ([[start]] : List (List MapPosition)).length +
          9 * ((in_bounds_cells ∪ {start}) \
            (([] : List MapPosition)).toFinset).card < ASTAR_FUEL := by
        simp only [List.length_singleton, List.toFinset_nil, Finset.sdiff_empty, ASTAR_FUEL]
        omega
      exact astar_loop_complete g goal (in_bounds_cells ∪ {start}) hU ASTAR_FUEL
        [[start]] []
        (by
          intro e he
          simp at he
          subst he
          exact ⟨by simp, Finset.mem_union_right _ (Finset.mem_singleton_self start)⟩)
        (by intro v hv; simp at hv)
        (by simp)
        hm0 hn start (Or.inr ⟨[start], by simp, rfl⟩) hreach
    · intro hnr
      cases ha : astar g start goal with
      | none => rfl
      | some path =>
        exfalso
        obtain ⟨e, hrev, hhead, _⟩ :=
          astar_loop_sound g start goal ASTAR_FUEL [[start]] [] hfr0 path ha
        exact hnr (hhead ▸ revPath_reach g start e hrev)

/-- C3 witness: on the counterexample grid the search from (0,0) to itself
returns the singleton path, and the asserted properties hold for it. -/
theorem astar_correct_witness :
    [(⟨0, 0⟩ : MapPosition)].head? = some ⟨0, 0⟩ ∧
    [(⟨0, 0⟩ : MapPosition)].getLast? = some ⟨0, 0⟩ ∧
    List.Chain' (fun a b => b ∈ adjacent_positions cex_grid a) [(⟨0, 0⟩ : MapPosition)] ∧
    (∀ q ∈ [(⟨0, 0⟩ : MapPosition)], q = ⟨0, 0⟩ ∨ is_occupied cex_grid q = false) :=
  (astar_correct cex_grid ⟨0, 0⟩ ⟨0, 0⟩).1 [⟨0, 0⟩] (by decide)

/-! ### C6: fire gating in the pursuit loop -/

/-- C6: in each pursuit iteration the fire key is pressed only if the
distance comparison against `MIN_FIRE_DIST` passed, and whenever the
line-of-sight check between the own cell and the resolved destination cell
reports a blocking cell, firing is suppressed. -/
theorem fire_gating (g : Grid) (ce : Bool) (src dst0 : MapPosition) (tp : Position) :
    ((follow_decision g ce src dst0 tp).1 = true → ce = true) ∧
    (∀ ob, (resolve_destination g dst0).2 = true →
      obstacle_between g src (resolve_destination g dst0).1 = some ob →
      (follow_decision g ce src dst0 tp).1 = false) := by
  constructor
  · intro h
    rw [follow_decision] at h
    by_cases hr : (resolve_destination g dst0).2 = true
    · rw [if_pos hr] at h
      cases ho : obstacle_between g src (resolve_destination g dst0).1 with
      | none =>
        rw [ho] at h
        exact h
      | some ob =>
        rw [ho] at h
        simp at h
    · rw [if_neg hr] at h
      exact h
  · intro ob hr hob
    rw [follow_decision, if_pos hr, hob]

/-- C6 witness: with a clear line the fire flag passes through, and with the
blocked line from (0,0) to (2,0) over the counterexample grid firing is
suppressed. -/
theorem fire_gating_witness :
    true = true ∧
    (follow_decision cex_grid true ⟨0, 0⟩ ⟨2, 0⟩ ⟨0, 0⟩).1 = false :=
  ⟨(fire_gating cex_grid true ⟨5, 5⟩ ⟨6, 5⟩ ⟨0, 0⟩).1 (by decide),
   (fire_gating cex_grid true ⟨0, 0⟩ ⟨2, 0⟩ ⟨0, 0⟩).2 ⟨1, 0⟩ (by decide) (by decide)⟩
